import Mathlib

/-!
Shallow embedding of the incremental knowledge-base synchronization and
retrieval engine of this repository (`src/src_functional/knowledge_base.py`,
`src/src/knowledge_base.py`, `src/src/local_llm_direct.py`), with theorems
settling the specification claims about it.

Modelling conventions:
* Python dictionaries with string keys are association lists
  (`List (String × _)`); lookup is the first matching key.
* File contents are `String`s; the filesystem is `String → Option String`
  (`none` = unreadable file, i.e. an `IOError` raised by `open`).
* The MD5 digest is modelled as an arbitrary function of the file's bytes
  (`hashFn : String → String`) — none of the claims depend on properties of
  MD5 beyond it being a deterministic function of the content.
* Embedding vectors are `List Int` (no claim performs float arithmetic on
  vector entries; only emptiness and identity of vectors matter).
* External calls (Ollama embedding, `unstructured` partitioning, Milvus
  client) are oracles supplied as explicit parameters; a Python exception
  raised by a call is an `Except.error` / `Option.none` value, and a
  `try/except` block is a `match` on it.
-/

namespace KB

/-- Python values as they occur in chunk metadata dictionaries
(`element.metadata.to_dict()` in `knowledge_base.py`).  Floats are modelled
as rationals; compound values (lists, dicts) are the non-primitive cases that
`sanitize_metadata` stringifies. -/
inductive PyVal where
  | vStr (s : String)
  | vInt (n : Int)
  | vFloat (q : Rat)
  | vBool (b : Bool)
  | vNone
  | vList (xs : List PyVal)
  | vDict (kvs : List (String × PyVal))
deriving Repr

/-- `isinstance(value, (str, int, float, bool)) or value is None` in
`sanitize_metadata` (`src_functional/knowledge_base.py` line 158). -/
def isPrimitive : PyVal → Bool
  | .vStr _ => true
  | .vInt _ => true
  | .vFloat _ => true
  | .vBool _ => true
  | .vNone => true
  | .vList _ => false
  | .vDict _ => false

mutual

/-- Python's `str(value)` for metadata values, modelled as a simple
deterministic textual rendering (the exact characters CPython produces are
external-library behaviour; the claims only need that non-primitives become
strings). -/
def pyStr : PyVal → String
  | .vStr s => s
  | .vInt n => toString n
  | .vFloat q => toString q
  | .vBool true => "True"
  | .vBool false => "False"
  | .vNone => "None"
  | .vList xs => "[" ++ pyStrList xs ++ "]"
  | .vDict kvs => "\x7b" ++ pyStrDict kvs ++ "\x7d"

def pyStrList : List PyVal → String
  | [] => ""
  | [x] => pyStr x
  | x :: xs => pyStr x ++ ", " ++ pyStrList xs

def pyStrDict : List (String × PyVal) → String
  | [] => ""
  | [kv] => kv.1 ++ ": " ++ pyStr kv.2
  | kv :: kvs => kv.1 ++ ": " ++ pyStr kv.2 ++ ", " ++ pyStrDict kvs

end

/-- Association-list model of a Python `dict` lookup `d.get(k)`:
first entry with the given key. -/
def dictLookup {α : Type} (m : List (String × α)) (k : String) : Option α :=
  (m.find? (fun kv => kv.1 == k)).map (fun kv => kv.2)

/-- Association-list model of `{**d, k: v}`: the value at `k` is replaced if
present (keeping the original position, as CPython does), otherwise the new
entry is appended at the end. -/
def dictInsert {α : Type} (m : List (String × α)) (k : String) (v : α) :
    List (String × α) :=
  if m.any (fun kv => kv.1 == k) then
    m.map (fun kv => if kv.1 == k then (k, v) else kv)
  else
    m ++ [(k, v)]

theorem map_update_id_of_no_key {α : Type} (m : List (String × α))
    (k : String) (v : α) (h : ¬ m.any (fun kv => kv.1 == k)) :
    m.map (fun kv => if kv.1 == k then (k, v) else kv) = m := by
  induction m with
  | nil => rfl
  | cons kv m ih =>
    simp only [List.any_cons, Bool.or_eq_true, not_or] at h
    have hk : (kv.1 == k) = false := by
      cases hc : kv.1 == k
      · rfl
      · exact absurd hc h.1
    simp only [List.map_cons, hk]
    rw [if_neg Bool.false_ne_true, ih (by simp [h.2])]

theorem dictLookup_dictInsert_self {α : Type} (m : List (String × α))
    (k : String) (v : α) : dictLookup (dictInsert m k v) k = some v := by
  unfold dictInsert dictLookup
  by_cases h : m.any (fun kv => kv.1 == k)
  · simp only [h, if_true]
    induction m with
    | nil => simp at h
    | cons kv m ih =>
      by_cases hk : kv.1 == k
      · simp [List.find?, hk]
      · simp only [List.map_cons, if_neg hk]
        simp only [List.any_cons, hk, Bool.false_or] at h
        have := ih h
        simp only [List.find?, hk]
        exact this
  · simp only [h, if_false]
    induction m with
    | nil => simp [List.find?]
    | cons kv m ih =>
      simp only [List.any_cons, Bool.or_eq_true, not_or] at h
      have hk : (kv.1 == k) = false := by
        cases hkb : kv.1 == k
        · rfl
        · exact absurd hkb h.1
      simp only [List.cons_append, List.find?, hk]
      exact ih (by simp [h.2])

theorem dictLookup_dictInsert_ne {α : Type} (m : List (String × α))
    (k q : String) (v : α) (hne : q ≠ k) :
    dictLookup (dictInsert m k v) q = dictLookup m q := by
  unfold dictInsert dictLookup
  by_cases h : m.any (fun kv => kv.1 == k)
  · simp only [h, if_true]
    induction m with
    | nil => simp
    | cons kv m ih =>
      by_cases hk : kv.1 == k
      · have hkeq : kv.1 = k := by simpa using hk
        have hq : (k == q) = false := by
          simp [beq_eq_false_iff_ne]
          exact fun hc => hne hc.symm
        have hq' : (kv.1 == q) = false := by
          rw [hkeq]; exact hq
        simp only [List.map_cons, if_pos hk, List.find?, hq, hq']
        by_cases h2 : m.any (fun kv => kv.1 == k)
        · exact ih h2
        · rw [map_update_id_of_no_key m k v (by simpa using h2)]
      · have hkf : (kv.1 == k) = false := by
          cases hc : kv.1 == k
          · rfl
          · exact absurd hc hk
        simp only [List.map_cons, if_neg hk, List.find?]
        cases hq : kv.1 == q
        · simp only []
          simp only [List.any_cons, hkf, Bool.false_or] at h
          exact ih h
        · simp
  · simp only [h, if_false]
    induction m with
    | nil =>
      have : (k == q) = false := by
        simp [beq_eq_false_iff_ne]
        exact fun hc => hne hc.symm
      simp [List.find?, this]
    | cons kv m ih =>
      simp only [List.any_cons, Bool.or_eq_true, not_or] at h
      simp only [List.cons_append, List.find?]
      cases hq : kv.1 == q
      · exact ih (by simp [h.2])
      · simp

/-!
## Embedding provider (`src/src/local_llm_direct.py`)
-/

/-- `EmbeddingResult` dataclass (`local_llm_direct.py` lines 45-53):
an embedding vector plus an optional error string. -/
structure EmbeddingResult where
  embedding : List Int
  error : Option String
deriving Repr, DecidableEq

/-- The `is_success` property: `self.error is None`. -/
def EmbeddingResult.is_success (r : EmbeddingResult) : Bool :=
  r.error.isNone

/-- An Ollama `/api/embed` response, as far as `embed_text` inspects it:
a dictionary that may or may not carry an `embeddings` key holding a list of
vectors. -/
structure OllamaResponse where
  embeddings : Option (List (List Int))
deriving Repr, DecidableEq

/-- `extract_embedding_from_response` (`local_llm_direct.py` lines 132-135):
`embeddings = response.get('embeddings', []); return embeddings[0] if
embeddings else []`. -/
def extract_embedding_from_response (response : OllamaResponse) : List Int :=
  match response.embeddings.getD [] with
  | [] => []
  | e :: _ => e

/-- `embed_text` (`local_llm_direct.py` lines 339-367) under the
`with_error_handling` decorator (lines 142-154): the provider call either
raises (modelled `Except.error e`, turned into
`EmbeddingResult(embedding=[], error=str(e))`) or returns a response, whose
extracted vector is wrapped in a result with `error=None`. -/
def embed_text (call : Except String OllamaResponse) : EmbeddingResult :=
  match call with
  | .error e => { embedding := [], error := some e }
  | .ok response => { embedding := extract_embedding_from_response response,
                      error := none }

/-!
## Document ingestion (`knowledge_base.py`)
-/

/-- An `unstructured` document element as far as the knowledge-base code
inspects it: its text, its class name, and its metadata dictionary
(`none` models an element without a `metadata` attribute, making the
`hasattr(element, 'metadata')` check false). -/
structure Element where
  text : String
  elementType : String
  metadata : Option (List (String × PyVal))

/-- Whitespace characters `str.strip()` removes. -/
def isPySpace (c : Char) : Bool :=
  c == ' ' || c == '\t' || c == '\n' || c == '\r'

/-- Python's `text.strip()`: drop leading and trailing whitespace
(structurally recursive model of the library routine). -/
def pyStrip (s : String) : String :=
  ⟨((s.data.dropWhile isPySpace).reverse.dropWhile isPySpace).reverse⟩

/-- Split a string at every occurrence of a separator character
(structurally recursive model of `str.split`). -/
def splitOnChar (sep : Char) (s : String) : List String :=
  let step := fun (c : Char) (acc : List (List Char)) =>
    match acc with
    | [] => if c == sep then [[], []] else [[c]]
    | cur :: rest => if c == sep then [] :: cur :: rest else (c :: cur) :: rest
  match s.data.foldr step [] with
  | [] => [""]
  | parts => parts.map (fun cs => ⟨cs⟩)

/-- Join strings with a separator (model of `sep.join`). -/
def joinWith (sep : String) : List String → String
  | [] => ""
  | [x] => x
  | x :: xs => x ++ sep ++ joinWith sep xs

/-- `sanitize_metadata` (`src_functional/knowledge_base.py` lines 151-163):
non-dict input yields `{}`; in a dict, primitive values (str/int/float/bool/
None) are kept and every other value is replaced by `str(value)`. -/
def sanitize_metadata : PyVal → List (String × PyVal)
  | .vDict kvs =>
      kvs.map (fun kv =>
        (kv.1, if isPrimitive kv.2 then kv.2 else .vStr (pyStr kv.2)))
  | _ => []

/-- `Path(file_path).stem`: final path component without its last extension
(modelled for the ordinary `name.ext` shapes the claims exercise). -/
def pathStem (p : String) : String :=
  let name := (splitOnChar '/' p).getLastD p
  let parts := splitOnChar '.' name
  if parts.length ≤ 1 then name
  else joinWith "." parts.dropLast

/-- `DocumentChunk` (`src_functional/knowledge_base.py` lines 35-42). -/
structure DocumentChunk where
  id : String
  text : String
  source : String
  element_type : String
  metadata : List (String × PyVal)

/-- `element_to_chunk` (`src_functional/knowledge_base.py` lines 166-181):
drop elements whose text is blank after stripping; otherwise build the chunk
with a deterministic id `stem_index`, source set to the file path, and
metadata run through `sanitize_metadata`. -/
def element_to_chunk (element : Element) (file_path : String) (index : Nat) :
    Option DocumentChunk :=
  if pyStrip element.text = "" then none
  else some
    { id := pathStem file_path ++ "_" ++ toString index
      text := element.text
      source := file_path
      element_type := element.elementType
      metadata := sanitize_metadata (.vDict (element.metadata.getD [])) }

/-- `elements_to_chunks` (`src_functional/knowledge_base.py` lines 184-191):
enumerate the elements and keep the chunks `element_to_chunk` produces. -/
def elements_to_chunks (elements : List Element) (file_path : String) :
    List DocumentChunk :=
  elements.enum.filterMap (fun ie => element_to_chunk ie.2 file_path ie.1)

/-- `DocumentProcessor.process_document` chunk construction
(`src/src/knowledge_base.py` lines 59-72), the class-based variant: same
filtering and id scheme, but the metadata dictionary is attached verbatim
(`element.metadata.to_dict()`), with NO sanitization. -/
def process_document_chunks (elements : List Element) (file_path : String) :
    List DocumentChunk :=
  elements.enum.filterMap (fun ie =>
    if pyStrip ie.2.text = "" then none
    else some
      { id := pathStem file_path ++ "_" ++ toString ie.1
        text := ie.2.text
        source := file_path
        element_type := ie.2.elementType
        metadata := ie.2.metadata.getD [] })

/-!
## Change tracker (`knowledge_base.py` hash-map functions)
-/

/-- The persisted hash map `path -> content hash`. -/
abbrev HashMap' := List (String × String)

/-- `compute_file_hash` (`src_functional/knowledge_base.py` lines 95-98):
`md5(raw bytes).hexdigest()`.  The digest function is the `hashFn`
parameter; an unreadable file (`fs path = none`) raises, modelled `none`. -/
def compute_file_hash (hashFn : String → String) (fs : String → Option String)
    (file_path : String) : Option String :=
  (fs file_path).map hashFn

/-- `file_has_changed` (`src_functional/knowledge_base.py` lines 115-119):
compare the current content hash with `stored_hashes.get(file_path)`;
since the digest is a string and a missing entry is `None`, a missing entry
always compares unequal. -/
def file_has_changed (hashFn : String → String) (fs : String → Option String)
    (file_path : String) (stored_hashes : HashMap') : Option Bool :=
  (compute_file_hash hashFn fs file_path).map
    (fun current => decide (some current ≠ dictLookup stored_hashes file_path))

/-- `update_file_hash` (`src_functional/knowledge_base.py` lines 122-125):
`return {**hashes, file_path: new_hash}` — a fresh dictionary agreeing with
the input everywhere except at `file_path`. -/
def update_file_hash (hashFn : String → String) (fs : String → Option String)
    (file_path : String) (hashes : HashMap') : Option HashMap' :=
  (compute_file_hash hashFn fs file_path).map
    (fun h => dictInsert hashes file_path h)

/-!
## Vector store (Milvus client operations as used by `knowledge_base.py`)
-/

/-- One stored record, with the fields `add_document_to_kb` /
`chunk_to_milvus_data` write (`src_functional/knowledge_base.py` lines
194-207); the auto-assigned int64 primary key is left implicit (deletion is
modelled directly by the source filter that produced the ids). -/
structure MilvusRow where
  vector : List Int
  text : String
  source : String
  element_type : String
  metadata : List (String × PyVal)
  timestamp : String
  chunk_id : String

/-- The Milvus collection state: `none` if the collection does not exist,
otherwise its list of rows. -/
structure VectorStore where
  collection : Option (List MilvusRow)

/-- `chunk_to_milvus_data` (`src_functional/knowledge_base.py` lines
194-207); `now` is the `datetime.now().isoformat()` timestamp. -/
def chunk_to_milvus_data (now : String) (chunk : DocumentChunk)
    (embedding : List Int) : MilvusRow :=
  { vector := embedding
    text := chunk.text
    source := chunk.source
    element_type := chunk.element_type
    metadata := chunk.metadata
    timestamp := now
    chunk_id := chunk.id }

/-- The rows a source-filtered query (`filter='source == "path"'`) returns:
empty when the collection is absent. -/
def rowsForSource (store : VectorStore) (file_path : String) :
    List MilvusRow :=
  match store.collection with
  | none => []
  | some rows => rows.filter (fun r => r.source == file_path)

/-- `remove_document_from_collection` (`src_functional/knowledge_base.py`
lines 404-439), identical in the relevant behaviour to
`KnowledgeBase._remove_document` (`src/src/knowledge_base.py` lines
198-222): no-op returning 0 when the collection is absent; otherwise query
the ids whose `source` matches and delete exactly those rows.  NOTE: neither
function touches the hash map. -/
def remove_document_from_collection (store : VectorStore)
    (file_path : String) : VectorStore × Nat :=
  match store.collection with
  | none => (store, 0)
  | some rows =>
      let matched := rows.filter (fun r => r.source == file_path)
      (⟨some (rows.filter (fun r => !(r.source == file_path)))⟩,
        matched.length)

/-- `EmbeddedChunk` (`src_functional/knowledge_base.py` lines 45-49). -/
structure EmbeddedChunk where
  chunk : DocumentChunk
  embedding : List Int

/-- `embed_chunk` (`src_functional/knowledge_base.py` lines 287-301): keep
the chunk only if the embed call succeeded AND the vector is non-empty
(`if result.is_success and result.embedding`); otherwise drop it.
`embedFn` is the oracle for `embed_text(llm_config, chunk.text)`. -/
def embed_chunk (embedFn : String → EmbeddingResult) (chunk : DocumentChunk) :
    Option EmbeddedChunk :=
  if (embedFn chunk.text).is_success && !(embedFn chunk.text).embedding.isEmpty
  then some ⟨chunk, (embedFn chunk.text).embedding⟩
  else none

/-- `embed_chunks` (`src_functional/knowledge_base.py` lines 304-317):
embed every chunk, silently skipping the failures. -/
def embed_chunks (embedFn : String → EmbeddingResult)
    (chunks : List DocumentChunk) : List EmbeddedChunk :=
  chunks.filterMap (embed_chunk embedFn)

/-- `insert_embedded_chunks` (`src_functional/knowledge_base.py` lines
382-401): zero chunks insert nothing; `client.insert` on a missing
collection raises (`Except.error`), otherwise the rows are appended. -/
def insert_embedded_chunks (now : String) (store : VectorStore)
    (embedded_chunks : List EmbeddedChunk) :
    Except String (VectorStore × Nat) :=
  match embedded_chunks with
  | [] => .ok (store, 0)
  | _ =>
      match store.collection with
      | none => .error "collection does not exist"
      | some rows =>
          .ok (⟨some (rows ++ embedded_chunks.map
                  (fun ec => chunk_to_milvus_data now ec.chunk ec.embedding))⟩,
               embedded_chunks.length)

/-!
## Sync engine (`add_document_to_kb`, `remove_document`)
-/

/-- The per-call environment: the external collaborators
`add_document_to_kb` consults.  `parseFn` is the element list
`parse_document` returns (a parse failure is `[]`), `embedFn` the embedding
provider, `now` the wall-clock timestamp. -/
structure SyncEnv where
  hashFn : String → String
  fs : String → Option String
  parseFn : String → List Element
  embedFn : String → EmbeddingResult
  now : String

/-- Knowledge-base state shared across operations: the collection plus the
persisted hash map. -/
structure KBState where
  store : VectorStore
  hashes : HashMap'

/-- Which control-flow branch of `add_document_to_kb` produced the result
(the branches are observably distinct in the source through their distinct
log messages and effects). -/
inductive AddOutcome where
  | ioError
  | unchanged
  | noChunks
  | noEmbeddings
  | added
deriving Repr, DecidableEq

/-- Result of one `add_document_to_kb` call: the branch taken, the state
after the call (store mutations persist even when the call returns failure),
the number of `embed_text` calls issued, and whether the
delete-by-source / insert store writes were issued. -/
structure AddResult where
  outcome : AddOutcome
  state : KBState
  embedCalls : Nat
  deleteCalled : Bool
  insertCalled : Bool

/-- The boolean `add_document_to_kb` returns: `True` only on the success
path. -/
def AddResult.success (r : AddResult) : Bool :=
  r.outcome == .added

/-- `add_document_to_kb` (`src_functional/knowledge_base.py` lines 495-540),
matching `KnowledgeBase.add_document` (`src/src/knowledge_base.py` lines
150-196) step for step:
1. unchanged file → return immediately (no parse, no embed, no store write);
2. parse; no chunks → return;
3. DELETE the old rows for the path (before any embedding!);
4. embed every chunk, silently dropping failures;
5. no chunk embedded → return failure (old rows stay deleted, hash
   untouched);
6. insert whatever subset embedded, then refresh the hash and return
   success.
A raised exception (unreadable file at the hash computations, insert into a
missing collection) is caught by the outer `try` and returns failure with
the hash map untouched — but store mutations already performed stand. -/
def add_document_to_kb (env : SyncEnv) (s : KBState) (file_path : String) :
    AddResult :=
  match file_has_changed env.hashFn env.fs file_path s.hashes with
  | none => ⟨.ioError, s, 0, false, false⟩
  | some false => ⟨.unchanged, s, 0, false, false⟩
  | some true =>
      if (elements_to_chunks (env.parseFn file_path) file_path).isEmpty then
        ⟨.noChunks, s, 0, false, false⟩
      else if (embed_chunks env.embedFn
          (elements_to_chunks (env.parseFn file_path) file_path)).isEmpty then
        ⟨.noEmbeddings,
          ⟨(remove_document_from_collection s.store file_path).1, s.hashes⟩,
          (elements_to_chunks (env.parseFn file_path) file_path).length,
          true, false⟩
      else
        match insert_embedded_chunks env.now
            (remove_document_from_collection s.store file_path).1
            (embed_chunks env.embedFn
              (elements_to_chunks (env.parseFn file_path) file_path)) with
        | .error _ =>
            ⟨.ioError,
              ⟨(remove_document_from_collection s.store file_path).1, s.hashes⟩,
              (elements_to_chunks (env.parseFn file_path) file_path).length,
              true, false⟩
        | .ok (store2, _) =>
            match update_file_hash env.hashFn env.fs file_path s.hashes with
            | none =>
                ⟨.ioError, ⟨store2, s.hashes⟩,
                  (elements_to_chunks (env.parseFn file_path) file_path).length,
                  true, true⟩
            | some hashes2 =>
                ⟨.added, ⟨store2, hashes2⟩,
                  (elements_to_chunks (env.parseFn file_path) file_path).length,
                  true, true⟩

/-- `remove_document`, the deletion path driven by
`DocumentWatcher.on_deleted` (`src/src/knowledge_base.py` lines 288-291):
it calls `_remove_document`, which deletes the rows for the path and does
NOT touch the hash map. -/
def remove_document (s : KBState) (file_path : String) : KBState :=
  ⟨(remove_document_from_collection s.store file_path).1, s.hashes⟩

/-- One operation of the synchronization interface; an `addDoc` carries the
environment snapshot (file contents, parser and embedder behaviour) in
effect during that call. -/
inductive KBOp where
  | addDoc (env : SyncEnv) (file_path : String)
  | removeDoc (file_path : String)

/-- Applying one operation to the knowledge-base state. -/
def stepOp (s : KBState) : KBOp → KBState
  | .addDoc env p => (add_document_to_kb env s p).state
  | .removeDoc p => remove_document s p

/-- Running a sequence of operations. -/
def runOps (s : KBState) (ops : List KBOp) : KBState :=
  ops.foldl stepOp s

/-- The startup state after `initialize_collection`: an existing, empty
collection and an empty hash map (`load_file_hashes` on a missing store). -/
def initState : KBState :=
  ⟨⟨some []⟩, []⟩

/-- One direction of the claimed hash/chunks correspondence: every path
with chunks present in the store has a recorded hash. -/
def hashRecordedForIndexed (s : KBState) : Prop :=
  ∀ p, rowsForSource s.store p ≠ [] → dictLookup s.hashes p ≠ none

/-!
## Search read path (`search_kb`, `search_collection`)
-/

/-- `SearchResult` dataclass (`src_functional/knowledge_base.py` lines
52-60); the score is the store's raw similarity value. -/
structure SearchResult where
  text : String
  source : String
  element_type : String
  metadata : List (String × PyVal)
  timestamp : String
  score : Int

/-- `search_collection` (`src_functional/knowledge_base.py` lines 442-470):
missing collection → `[]`; `client.search` result is converted row by row,
and any raised exception (`Except.error`) is caught, returning `[]`.
`raw` is the oracle for the Milvus `client.search` call. -/
def search_collection (store : VectorStore)
    (raw : Except String (List SearchResult)) : List SearchResult :=
  match store.collection with
  | none => []
  | some _ =>
      match raw with
      | .error _ => []
      | .ok results => results

/-- `search_kb` (`src_functional/knowledge_base.py` lines 543-562), the
SearchService: embed the query; on embedding error or an empty vector
return `[]`; otherwise delegate to `search_collection`.
(`KnowledgeBase.search`, `src/src/knowledge_base.py` lines 224-259, wraps
the same logic in one more `try/except` that also returns `[]`.) -/
def search_kb (query_embedding : EmbeddingResult) (store : VectorStore)
    (raw : Except String (List SearchResult)) : List SearchResult :=
  if query_embedding.is_success && !query_embedding.embedding.isEmpty then
    search_collection store raw
  else []

/-!
## Hash-store persistence (`save_file_hashes`)
-/

/-- A JSON rendering of the hash map in the shape `json.dump(hashes, f,
indent=2)` produces (string escaping elided — the claims only need that
distinct maps and the empty file are distinguishable). -/
def jsonDump (hashes : HashMap') : String :=
  match hashes with
  | [] => "\x7b\x7d"
  | _ =>
      "\x7b\n" ++
      joinWith ",\n"
        (hashes.map (fun kv => "  \x22" ++ kv.1 ++ "\x22: \x22" ++ kv.2 ++ "\x22")) ++
      "\n\x7d"

/-- The observable file-system steps `save_file_hashes`
(`src_functional/knowledge_base.py` lines 109-112) and
`_save_file_hashes` (`src/src/knowledge_base.py` lines 134-137) perform:
`open(hash_file, 'w')` truncates the target file in place, then
`json.dump` writes the serialized map.  No temp file, no rename. -/
inductive FileOp where
  | openTrunc
  | writeAll (data : String)

/-- `save_file_hashes` as its sequence of file operations. -/
def save_file_hashes (hashes : HashMap') : List FileOp :=
  [.openTrunc, .writeAll (jsonDump hashes)]

/-- Effect of one file operation on the on-disk content. -/
def applyFileOp (disk : String) : FileOp → String
  | .openTrunc => ""
  | .writeAll data => disk ++ data

/-- Every on-disk content observable if the process crashes before, between,
or after the steps of a save: the states after each prefix of the
operation sequence. -/
def crashStates (disk0 : String) (ops : List FileOp) : List String :=
  ops.scanl applyFileOp disk0

/-!
## Concrete fixtures (used by witnesses and counterexamples)
-/

/-- A previously indexed row for `d.md` (old content version). -/
def rowC1old : MilvusRow :=
  ⟨[1], "old", "d.md", "T", [], "ts1", "d_0"⟩

/-- Environment in which `d.md` now holds `v2`, parses into two chunks, and
embedding fails for the first chunk's text but succeeds for the second. -/
def envC1 : SyncEnv :=
  { hashFn := id
    fs := fun p => if p == "d.md" then some "v2" else none
    parseFn := fun _ => [⟨"t1", "T", none⟩, ⟨"t2", "T", none⟩]
    embedFn := fun t => if t == "t1" then ⟨[], some "boom"⟩ else ⟨[2], none⟩
    now := "ts2" }

/-- State before the failing resync: the old chunk is indexed and the old
content hash `v1` is recorded. -/
def stateC1 : KBState :=
  ⟨⟨some [rowC1old]⟩, [("d.md", "v1")]⟩

/-- Environment for a straightforwardly successful sync of path `d`. -/
def envC2 : SyncEnv :=
  { hashFn := id
    fs := fun _ => some "v1"
    parseFn := fun _ => [⟨"hello", "T", none⟩]
    embedFn := fun _ => ⟨[1], none⟩
    now := "ts1" }

/-- A state holding one indexed row and the matching hash entry for
`doc.txt`. -/
def stateC3 : KBState :=
  ⟨⟨some [⟨[1], "t", "doc.txt", "T", [], "ts", "doc_0"⟩]⟩, [("doc.txt", "h1")]⟩

/-- Environment for a successful sync used to exercise idempotence. -/
def envC5 : SyncEnv :=
  { hashFn := id
    fs := fun _ => some "w1"
    parseFn := fun _ => [⟨"text", "T", none⟩]
    embedFn := fun _ => ⟨[3], none⟩
    now := "t5" }

/-- An element carrying a non-primitive metadata value (a list). -/
def elemC7 : Element :=
  ⟨"hi", "Title", some [("langs", .vList [.vStr "eng"])]⟩

/-- The chunk the functional pipeline emits for `elemC7` in `f.md`: the
list value has been stringified. -/
def chunkC7 : DocumentChunk :=
  ⟨"f_0", "hi", "f.md", "Title", [("langs", .vStr "[eng]")]⟩

end KB

namespace KB

/-!
# Theorems settling the claims
-/

/-- Auxiliary: filtering with a predicate after keeping only the elements
that falsify it yields nothing. -/
theorem filter_after_filter_not {α : Type} (p : α → Bool) (l : List α) :
    (l.filter (fun a => !(p a))).filter p = [] := by
  induction l with
  | nil => rfl
  | cons a l ih =>
    by_cases h : p a <;> simp [List.filter_cons, h, ih]

/-- Auxiliary: a sanitized metadata value is always primitive. -/
theorem isPrimitive_sanitized (v : PyVal) :
    isPrimitive (if isPrimitive v then v else .vStr (pyStr v)) = true := by
  cases v <;> simp [isPrimitive]

/-- Auxiliary: every chunk emitted for a file carries that file as its
source. -/
theorem chunk_mem_source (elements : List Element) (file_path : String)
    (c : DocumentChunk) (hc : c ∈ elements_to_chunks elements file_path) :
    c.source = file_path := by
  unfold elements_to_chunks at hc
  rw [List.mem_filterMap] at hc
  obtain ⟨ie, _, heq⟩ := hc
  unfold element_to_chunk at heq
  split at heq
  · simp at heq
  · rw [Option.some.injEq] at heq
    subst heq
    rfl

/-- Auxiliary: an embedded chunk comes from one of the input chunks. -/
theorem embed_chunks_mem (embedFn : String → EmbeddingResult)
    (chunks : List DocumentChunk) (ec : EmbeddedChunk)
    (h : ec ∈ embed_chunks embedFn chunks) : ec.chunk ∈ chunks := by
  unfold embed_chunks at h
  rw [List.mem_filterMap] at h
  obtain ⟨c, hcm, heq⟩ := h
  unfold embed_chunk at heq
  split at heq
  · rw [Option.some.injEq] at heq
    subst heq
    exact hcm
  · simp at heq

/-- Auxiliary: after a delete-by-source, a source-filtered query for that
source finds nothing. -/
theorem rowsForSource_remove_self (st : VectorStore) (p : String) :
    rowsForSource (remove_document_from_collection st p).1 p = [] := by
  obtain ⟨col⟩ := st
  cases col with
  | none => rfl
  | some rows =>
    simp [remove_document_from_collection, rowsForSource,
      filter_after_filter_not (fun r => r.source == p) rows]

/-- Auxiliary: a delete-by-source only removes rows, so any row matching a
source filter afterwards matched it before. -/
theorem mem_rowsForSource_remove (st : VectorStore) (p q : String)
    (x : MilvusRow)
    (h : x ∈ rowsForSource (remove_document_from_collection st p).1 q) :
    x ∈ rowsForSource st q := by
  obtain ⟨col⟩ := st
  cases col with
  | none => exact h
  | some rows =>
    simp only [remove_document_from_collection, rowsForSource,
      List.mem_filter] at h ⊢
    exact ⟨h.1.1, h.2⟩

/-- **C10**: `embed_text` is total — a raising provider call becomes an
`EmbeddingResult` carrying the error — and its success flag does not
guarantee a usable vector: a response whose `embeddings` field is absent or
empty yields `error = None` (`is_success` true) with an empty embedding, so
callers must check non-emptiness separately. -/
theorem embed_text_total_and_empty_vector_success :
    (∀ e : String, embed_text (.error e) = ⟨[], some e⟩) ∧
    (∀ response : OllamaResponse, (embed_text (.ok response)).error = none) ∧
    embed_text (.ok ⟨none⟩) = ⟨[], none⟩ ∧
    (embed_text (.ok ⟨none⟩)).is_success = true ∧
    embed_text (.ok ⟨some []⟩) = ⟨[], none⟩ ∧
    (embed_text (.ok ⟨some []⟩)).is_success = true :=
  ⟨fun _ => rfl, fun _ => rfl, rfl, rfl, rfl, rfl⟩

/-- **C9**: for a readable file, `file_has_changed` returns true whenever
the map has no entry for the path, otherwise true exactly when the current
content hash differs from the stored hash; and the result depends only on
the file's current bytes and the map. -/
theorem file_has_changed_matches_spec (hashFn : String → String)
    (fs : String → Option String) (file_path : String)
    (stored_hashes : HashMap') (content : String)
    (hread : fs file_path = some content) :
    (dictLookup stored_hashes file_path = none →
        file_has_changed hashFn fs file_path stored_hashes = some true) ∧
    (∀ stored, dictLookup stored_hashes file_path = some stored →
        (file_has_changed hashFn fs file_path stored_hashes = some true ↔
          hashFn content ≠ stored)) ∧
    (∀ fs2 : String → Option String, fs2 file_path = some content →
        file_has_changed hashFn fs2 file_path stored_hashes =
          file_has_changed hashFn fs file_path stored_hashes) := by
  refine ⟨?_, ?_, ?_⟩
  · intro hnone
    simp [file_has_changed, compute_file_hash, hread, hnone]
  · intro stored hsome
    simp [file_has_changed, compute_file_hash, hread, hsome]
  · intro fs2 h2
    simp [file_has_changed, compute_file_hash, hread, h2]

/-- Closed witness for `file_has_changed_matches_spec` at a concrete
readable file. -/
theorem file_has_changed_matches_spec_witness :
    (dictLookup [("p", "x")] "p" = none →
        file_has_changed id (fun _ => some "x") "p" [("p", "x")] = some true) ∧
    (∀ stored, dictLookup [("p", "x")] "p" = some stored →
        (file_has_changed id (fun _ => some "x") "p" [("p", "x")] = some true ↔
          id "x" ≠ stored)) ∧
    (∀ fs2 : String → Option String, fs2 "p" = some "x" →
        file_has_changed id fs2 "p" [("p", "x")] =
          file_has_changed id (fun _ => some "x") "p" [("p", "x")]) :=
  file_has_changed_matches_spec id (fun _ => some "x") "p" [("p", "x")] "x" rfl

/-- **C8**: `update_file_hash` returns a fresh map that maps the path to
the file's current content hash and agrees with the input map on every
other key; the input map itself is untouched (the source builds a new dict
with `{**hashes, file_path: new_hash}`). -/
theorem update_file_hash_frame (hashFn : String → String)
    (fs : String → Option String) (file_path : String) (hashes : HashMap')
    (content : String) (hread : fs file_path = some content) :
    update_file_hash hashFn fs file_path hashes =
      some (dictInsert hashes file_path (hashFn content)) ∧
    dictLookup (dictInsert hashes file_path (hashFn content)) file_path =
      some (hashFn content) ∧
    ∀ q, q ≠ file_path →
      dictLookup (dictInsert hashes file_path (hashFn content)) q =
        dictLookup hashes q :=
  ⟨by simp [update_file_hash, compute_file_hash, hread],
   dictLookup_dictInsert_self _ _ _,
   fun _ hq => dictLookup_dictInsert_ne _ _ _ _ hq⟩

/-- Closed witness for `update_file_hash_frame` at a concrete input. -/
theorem update_file_hash_frame_witness :
    update_file_hash id (fun _ => some "c") "p" [("q", "z")] =
      some (dictInsert [("q", "z")] "p" (id "c")) ∧
    dictLookup (dictInsert [("q", "z")] "p" (id "c")) "p" = some (id "c") ∧
    ∀ r, r ≠ "p" →
      dictLookup (dictInsert [("q", "z")] "p" (id "c")) r =
        dictLookup [("q", "z")] r :=
  update_file_hash_frame id (fun _ => some "c") "p" [("q", "z")] "c" rfl

/-- **C6**: the search read path degrades gracefully — whenever the query
embedding fails (error set or empty vector), the collection does not exist,
or the store call raises, `search_kb` returns the empty list instead of
propagating the error. -/
theorem search_kb_degrades_to_empty (query_embedding : EmbeddingResult)
    (store : VectorStore) (raw : Except String (List SearchResult))
    (h : query_embedding.error ≠ none ∨ query_embedding.embedding = [] ∨
         store.collection = none ∨ ∃ e, raw = .error e) :
    search_kb query_embedding store raw = [] := by
  unfold search_kb search_collection EmbeddingResult.is_success
  rcases h with h | h | h | ⟨e, he⟩
  · have hfalse : query_embedding.error.isNone = false := by
      cases hc : query_embedding.error
      · exact absurd hc h
      · rfl
    simp [hfalse]
  · simp [h]
  · cases hcond : (query_embedding.error.isNone &&
        !query_embedding.embedding.isEmpty) <;> simp [hcond, h]
  · subst he
    cases hcol : store.collection <;>
      cases hcond : (query_embedding.error.isNone &&
        !query_embedding.embedding.isEmpty) <;> simp [hcond, hcol]

/-- Closed witness for `search_kb_degrades_to_empty`: a failed embedding
yields an empty result list. -/
theorem search_kb_degrades_to_empty_witness :
    search_kb ⟨[], some "boom"⟩ ⟨some []⟩ (.ok []) = [] :=
  search_kb_degrades_to_empty ⟨[], some "boom"⟩ ⟨some []⟩ (.ok [])
    (Or.inl (by decide))

/-- **C4, counterexample**: `save_file_hashes` is not atomic.  Saving the
map `{a: h2}` over a disk holding the serialized map `{a: h1}` passes
through the on-disk state `""` (the file truncated by `open(..., 'w')`),
which is neither the complete previous map nor the complete new map. -/
theorem save_crash_can_lose_previous_map :
    "" ∈ crashStates (jsonDump [("a", "h1")]) (save_file_hashes [("a", "h2")]) ∧
    "" ≠ jsonDump [("a", "h1")] ∧
    "" ≠ jsonDump [("a", "h2")] := by
  refine ⟨?_, by decide, by decide⟩
  simp [crashStates, save_file_hashes, applyFileOp, List.scanl]

/-- **C4, amended**: `save_file_hashes` truncates the target file in place
and then writes the new serialization: the observable on-disk states during
a save are exactly the previous content, the empty file, and the complete
new serialization — so a completed save is correct, but a crash between
truncation and write-completion leaves an empty (corrupt) hash store, not
the previous map. -/
theorem save_file_hashes_trace (disk0 : String) (hashes : HashMap') :
    crashStates disk0 (save_file_hashes hashes) =
      [disk0, "", jsonDump hashes] := by
  simp [crashStates, save_file_hashes, applyFileOp, List.scanl,
    String.empty_append]

/-- **C3, counterexample**: after `remove_document` on `doc.txt`, the
source-filtered query indeed returns zero chunks, but the hash map still
contains the entry for `doc.txt` — contradicting the claim that the
persisted hash map no longer contains the path. -/
theorem remove_document_hash_entry_persists :
    rowsForSource (remove_document stateC3 "doc.txt").store "doc.txt" = [] ∧
    dictLookup (remove_document stateC3 "doc.txt").hashes "doc.txt" =
      some "h1" := by
  constructor <;> rfl

/-- **C3, amended**: after `remove_document(path)` a source-filtered query
for the path returns zero chunks, but the hash map is left completely
untouched (the path's entry is not dropped and nothing is persisted). -/
theorem remove_document_clears_rows_keeps_hashes (s : KBState)
    (file_path : String) :
    rowsForSource (remove_document s file_path).store file_path = [] ∧
    (remove_document s file_path).hashes = s.hashes := by
  obtain ⟨⟨col⟩, hs⟩ := s
  refine ⟨?_, rfl⟩
  cases col with
  | none => rfl
  | some rows =>
    simp [remove_document, remove_document_from_collection, rowsForSource,
      filter_after_filter_not (fun r => r.source == file_path) rows]

/-- Auxiliary inversion: when `add_document_to_kb` returns success, the
file had changed, both store writes were issued, and the resulting hash map
is the input map with the path's entry refreshed to the current content
hash. -/
theorem add_added_characterization (env : SyncEnv) (s : KBState)
    (file_path : String)
    (h : (add_document_to_kb env s file_path).outcome = .added) :
    file_has_changed env.hashFn env.fs file_path s.hashes = some true ∧
    (add_document_to_kb env s file_path).deleteCalled = true ∧
    (add_document_to_kb env s file_path).insertCalled = true ∧
    ∃ hv, compute_file_hash env.hashFn env.fs file_path = some hv ∧
      (add_document_to_kb env s file_path).state.hashes =
        dictInsert s.hashes file_path hv := by
  cases hfc : file_has_changed env.hashFn env.fs file_path s.hashes with
  | none => simp [add_document_to_kb, hfc] at h
  | some b =>
    cases b with
    | false => simp [add_document_to_kb, hfc] at h
    | true =>
      cases hchunks :
          (elements_to_chunks (env.parseFn file_path) file_path).isEmpty with
      | true => simp [add_document_to_kb, hfc, hchunks] at h
      | false =>
        cases hemb : (embed_chunks env.embedFn
            (elements_to_chunks (env.parseFn file_path) file_path)).isEmpty with
        | true => simp [add_document_to_kb, hfc, hchunks, hemb] at h
        | false =>
          cases hins : insert_embedded_chunks env.now
              (remove_document_from_collection s.store file_path).1
              (embed_chunks env.embedFn
                (elements_to_chunks (env.parseFn file_path) file_path)) with
          | error e =>
            simp [add_document_to_kb, hfc, hchunks, hemb, hins] at h
          | ok pair =>
            obtain ⟨store2, count⟩ := pair
            cases hcmp :
                compute_file_hash env.hashFn env.fs file_path with
            | none =>
              have hupd :
                  update_file_hash env.hashFn env.fs file_path s.hashes =
                    none := by
                simp [update_file_hash, hcmp]
              simp [add_document_to_kb, hfc, hchunks, hemb, hins, hupd] at h
            | some hv =>
              have hupd :
                  update_file_hash env.hashFn env.fs file_path s.hashes =
                    some (dictInsert s.hashes file_path hv) := by
                simp [update_file_hash, hcmp]
              refine ⟨rfl, ?_, ?_, hv, rfl, ?_⟩ <;>
                simp [add_document_to_kb, hfc, hchunks, hemb, hins, hupd]

/-- **C5**: idempotence for unchanged files.  If a call to
`add_document_to_kb` succeeds, then a second call in the same environment
(same file bytes) takes the `Unchanged` early return: it issues zero
embedding calls and neither store write, and leaves the state exactly as
the first call left it — so all embedding calls and store writes across the
two calls happened in the first. -/
theorem add_document_second_call_unchanged (env : SyncEnv) (s : KBState)
    (file_path : String)
    (hadded : (add_document_to_kb env s file_path).outcome = .added) :
    (add_document_to_kb env s file_path).deleteCalled = true ∧
    (add_document_to_kb env s file_path).insertCalled = true ∧
    (add_document_to_kb env (add_document_to_kb env s file_path).state
        file_path).outcome = .unchanged ∧
    (add_document_to_kb env (add_document_to_kb env s file_path).state
        file_path).state = (add_document_to_kb env s file_path).state ∧
    (add_document_to_kb env (add_document_to_kb env s file_path).state
        file_path).embedCalls = 0 ∧
    (add_document_to_kb env (add_document_to_kb env s file_path).state
        file_path).deleteCalled = false ∧
    (add_document_to_kb env (add_document_to_kb env s file_path).state
        file_path).insertCalled = false := by
  obtain ⟨hfc, hdel, hins, hv, hcmp, hhashes⟩ :=
    add_added_characterization env s file_path hadded
  have hfc2 : file_has_changed env.hashFn env.fs file_path
      (add_document_to_kb env s file_path).state.hashes = some false := by
    unfold file_has_changed
    rw [hcmp, hhashes]
    simp [dictLookup_dictInsert_self]
  generalize hgen : (add_document_to_kb env s file_path).state = s1 at hfc2 ⊢
  refine ⟨hdel, hins, ?_, ?_, ?_, ?_, ?_⟩ <;>
    simp [add_document_to_kb, hfc2]

/-- Closed witness for `add_document_second_call_unchanged` at a concrete
successful first sync. -/
theorem add_document_second_call_unchanged_witness :
    (add_document_to_kb envC5 initState "d").deleteCalled = true ∧
    (add_document_to_kb envC5 initState "d").insertCalled = true ∧
    (add_document_to_kb envC5 (add_document_to_kb envC5 initState "d").state
        "d").outcome = .unchanged ∧
    (add_document_to_kb envC5 (add_document_to_kb envC5 initState "d").state
        "d").state = (add_document_to_kb envC5 initState "d").state ∧
    (add_document_to_kb envC5 (add_document_to_kb envC5 initState "d").state
        "d").embedCalls = 0 ∧
    (add_document_to_kb envC5 (add_document_to_kb envC5 initState "d").state
        "d").deleteCalled = false ∧
    (add_document_to_kb envC5 (add_document_to_kb envC5 initState "d").state
        "d").insertCalled = false :=
  add_document_second_call_unchanged envC5 initState "d" rfl

/-- **C1, counterexample**: embedding failure does not abort the sync.
In `envC1` the file `d.md` parses into two chunks and embedding the first
chunk fails, yet `add_document_to_kb` deletes the previously indexed chunk,
inserts the partial set (only `t2`), and updates the recorded hash from
`v1` to `v2` — every behaviour the claim forbids. -/
theorem add_document_not_failstop :
    (envC1.embedFn "t1").is_success = false ∧
    (add_document_to_kb envC1 stateC1 "d.md").deleteCalled = true ∧
    (add_document_to_kb envC1 stateC1 "d.md").insertCalled = true ∧
    dictLookup stateC1.hashes "d.md" = some "v1" ∧
    dictLookup (add_document_to_kb envC1 stateC1 "d.md").state.hashes
      "d.md" = some "v2" ∧
    (rowsForSource stateC1.store "d.md").map (fun r => r.text) = ["old"] ∧
    (rowsForSource (add_document_to_kb envC1 stateC1 "d.md").state.store
        "d.md").map (fun r => r.text) = ["t2"] :=
  ⟨rfl, rfl, rfl, rfl, rfl, rfl, rfl⟩

/-- Auxiliary: the specialised delete-filter fact used to compute stores
after a delete-by-source. -/
theorem filter_source_after_delete (p : String) (rows : List MilvusRow) :
    (rows.filter (fun r => !(r.source == p))).filter
      (fun r => r.source == p) = [] :=
  filter_after_filter_not (fun r => r.source == p) rows

/-- **C1, amended**: what actually happens when the sync reaches the
Embedding step (file changed, chunks non-empty) and some embeddings fail:
the delete-by-source has ALREADY run (before any embedding), one embed call
is issued per chunk, and failures are silently skipped.  If every chunk
fails to embed, the call returns without inserting and without touching the
hash — but the previous chunks remain deleted.  If at least one chunk
embeds, the partial chunk set is inserted and the hash is refreshed to the
new content hash. -/
theorem add_document_embedding_failure_behavior (env : SyncEnv) (s : KBState)
    (file_path : String) (rows : List MilvusRow)
    (hchanged :
      file_has_changed env.hashFn env.fs file_path s.hashes = some true)
    (hcol : s.store.collection = some rows)
    (hchunks :
      (elements_to_chunks (env.parseFn file_path) file_path).isEmpty
        = false) :
    (add_document_to_kb env s file_path).deleteCalled = true ∧
    (add_document_to_kb env s file_path).embedCalls =
      (elements_to_chunks (env.parseFn file_path) file_path).length ∧
    ((embed_chunks env.embedFn
        (elements_to_chunks (env.parseFn file_path) file_path)) = [] →
      (add_document_to_kb env s file_path).outcome = .noEmbeddings ∧
      (add_document_to_kb env s file_path).insertCalled = false ∧
      (add_document_to_kb env s file_path).state.hashes = s.hashes ∧
      rowsForSource (add_document_to_kb env s file_path).state.store
        file_path = []) ∧
    ((embed_chunks env.embedFn
        (elements_to_chunks (env.parseFn file_path) file_path)) ≠ [] →
      (add_document_to_kb env s file_path).outcome = .added ∧
      (add_document_to_kb env s file_path).insertCalled = true ∧
      (∃ hv, compute_file_hash env.hashFn env.fs file_path = some hv ∧
        (add_document_to_kb env s file_path).state.hashes =
          dictInsert s.hashes file_path hv) ∧
      rowsForSource (add_document_to_kb env s file_path).state.store
          file_path =
        (embed_chunks env.embedFn
          (elements_to_chunks (env.parseFn file_path) file_path)).map
          (fun ec => chunk_to_milvus_data env.now ec.chunk ec.embedding)) := by
  have hst1 : (remove_document_from_collection s.store file_path).1 =
      ⟨some (rows.filter (fun r => !(r.source == file_path)))⟩ := by
    simp [remove_document_from_collection, hcol]
  cases hemb : embed_chunks env.embedFn
      (elements_to_chunks (env.parseFn file_path) file_path) with
  | nil =>
    refine ⟨?_, ?_, ?_, ?_⟩
    · simp [add_document_to_kb, hchanged, hchunks, hemb]
    · simp [add_document_to_kb, hchanged, hchunks, hemb]
    · intro _
      refine ⟨?_, ?_, ?_, ?_⟩ <;>
        simp [add_document_to_kb, hchanged, hchunks, hemb,
          rowsForSource_remove_self]
    · intro hne
      exact absurd rfl hne
  | cons a l =>
    have hins : insert_embedded_chunks env.now
        ⟨some (rows.filter (fun r => !(r.source == file_path)))⟩ (a :: l) =
        .ok (⟨some (rows.filter (fun r => !(r.source == file_path)) ++
              (a :: l).map
                (fun ec => chunk_to_milvus_data env.now ec.chunk
                  ec.embedding))⟩,
             (a :: l).length) := rfl
    obtain ⟨c, hc⟩ : ∃ c, env.fs file_path = some c := by
      unfold file_has_changed compute_file_hash at hchanged
      cases hfs : env.fs file_path with
      | none => rw [hfs] at hchanged; simp at hchanged
      | some c => exact ⟨c, rfl⟩
    have hcmp : compute_file_hash env.hashFn env.fs file_path =
        some (env.hashFn c) := by
      simp [compute_file_hash, hc]
    have hupd : update_file_hash env.hashFn env.fs file_path s.hashes =
        some (dictInsert s.hashes file_path (env.hashFn c)) := by
      simp [update_file_hash, hcmp]
    have hall : ∀ x ∈ (a :: l).map
        (fun ec => chunk_to_milvus_data env.now ec.chunk ec.embedding),
        (x.source == file_path) = true := by
      intro x hx
      obtain ⟨ec, hec, hxeq⟩ := List.mem_map.mp hx
      subst hxeq
      have hchunkmem : ec.chunk ∈
          elements_to_chunks (env.parseFn file_path) file_path :=
        embed_chunks_mem env.embedFn _ ec (by rw [hemb]; exact hec)
      have hsrc := chunk_mem_source _ _ _ hchunkmem
      simp [chunk_to_milvus_data, hsrc]
    have hrows : rowsForSource
        ⟨some (rows.filter (fun r => !(r.source == file_path)) ++
          (a :: l).map
            (fun ec => chunk_to_milvus_data env.now ec.chunk ec.embedding))⟩
        file_path =
        (a :: l).map
          (fun ec => chunk_to_milvus_data env.now ec.chunk ec.embedding) := by
      simp only [rowsForSource, List.filter_append,
        filter_source_after_delete, List.nil_append]
      exact List.filter_eq_self.mpr hall
    simp only [List.map_cons] at hrows
    refine ⟨?_, ?_, ?_, ?_⟩
    · simp [add_document_to_kb, hchanged, hchunks, hemb, hst1, hins, hupd]
    · simp [add_document_to_kb, hchanged, hchunks, hemb, hst1, hins, hupd]
    · intro habs
      exact absurd habs (by simp)
    · intro _
      refine ⟨?_, ?_, ⟨env.hashFn c, hcmp, ?_⟩, ?_⟩ <;>
        simp [add_document_to_kb, hchanged, hchunks, hemb, hst1, hins, hupd,
          hrows]

/-- Closed witness for `add_document_embedding_failure_behavior`,
instantiated at the partial-embedding-failure environment `envC1`. -/
theorem add_document_embedding_failure_behavior_witness :
    (add_document_to_kb envC1 stateC1 "d.md").deleteCalled = true ∧
    (add_document_to_kb envC1 stateC1 "d.md").embedCalls =
      (elements_to_chunks (envC1.parseFn "d.md") "d.md").length ∧
    ((embed_chunks envC1.embedFn
        (elements_to_chunks (envC1.parseFn "d.md") "d.md")) = [] →
      (add_document_to_kb envC1 stateC1 "d.md").outcome = .noEmbeddings ∧
      (add_document_to_kb envC1 stateC1 "d.md").insertCalled = false ∧
      (add_document_to_kb envC1 stateC1 "d.md").state.hashes =
        stateC1.hashes ∧
      rowsForSource (add_document_to_kb envC1 stateC1 "d.md").state.store
        "d.md" = []) ∧
    ((embed_chunks envC1.embedFn
        (elements_to_chunks (envC1.parseFn "d.md") "d.md")) ≠ [] →
      (add_document_to_kb envC1 stateC1 "d.md").outcome = .added ∧
      (add_document_to_kb envC1 stateC1 "d.md").insertCalled = true ∧
      (∃ hv, compute_file_hash envC1.hashFn envC1.fs "d.md" = some hv ∧
        (add_document_to_kb envC1 stateC1 "d.md").state.hashes =
          dictInsert stateC1.hashes "d.md" hv) ∧
      rowsForSource (add_document_to_kb envC1 stateC1 "d.md").state.store
          "d.md" =
        (embed_chunks envC1.embedFn
          (elements_to_chunks (envC1.parseFn "d.md") "d.md")).map
          (fun ec => chunk_to_milvus_data envC1.now ec.chunk ec.embedding)) :=
  add_document_embedding_failure_behavior envC1 stateC1 "d.md" [rowC1old]
    rfl rfl rfl

/-- Auxiliary: one `add_document_to_kb` call preserves the
chunks-imply-hash invariant. -/
theorem add_preserves_hashRecordedForIndexed (env : SyncEnv) (s : KBState)
    (file_path : String) (hInv : hashRecordedForIndexed s) :
    hashRecordedForIndexed (add_document_to_kb env s file_path).state := by
  cases hfc : file_has_changed env.hashFn env.fs file_path s.hashes with
  | none => simp only [add_document_to_kb, hfc]; exact hInv
  | some b =>
    cases b with
    | false => simp only [add_document_to_kb, hfc]; exact hInv
    | true =>
      cases hchunks :
          (elements_to_chunks (env.parseFn file_path) file_path).isEmpty with
      | true =>
        have hval : add_document_to_kb env s file_path =
            ⟨.noChunks, s, 0, false, false⟩ := by
          simp [add_document_to_kb, hfc, hchunks]
        rw [hval]
        exact hInv
      | false =>
        cases hemb : embed_chunks env.embedFn
            (elements_to_chunks (env.parseFn file_path) file_path) with
        | nil =>
          have hval : add_document_to_kb env s file_path =
              ⟨.noEmbeddings,
                ⟨(remove_document_from_collection s.store file_path).1,
                  s.hashes⟩,
                (elements_to_chunks (env.parseFn file_path) file_path).length,
                true, false⟩ := by
            simp [add_document_to_kb, hfc, hchunks, hemb]
          rw [hval]
          intro q hq
          obtain ⟨x, hx⟩ := List.exists_mem_of_ne_nil _ hq
          exact hInv q (List.ne_nil_of_mem
            (mem_rowsForSource_remove s.store file_path q x hx))
        | cons a l =>
          cases hcol : s.store.collection with
          | none =>
            have hst1 :
                (remove_document_from_collection s.store file_path).1 =
                  s.store := by
              simp [remove_document_from_collection, hcol]
            have hins : insert_embedded_chunks env.now s.store (a :: l) =
                .error "collection does not exist" := by
              simp [insert_embedded_chunks, hcol]
            have hval : add_document_to_kb env s file_path =
                ⟨.ioError, ⟨s.store, s.hashes⟩,
                  (elements_to_chunks (env.parseFn file_path)
                    file_path).length,
                  true, false⟩ := by
              simp [add_document_to_kb, hfc, hchunks, hemb, hst1, hins]
            rw [hval]
            exact hInv
          | some rows =>
            have hst1 :
                (remove_document_from_collection s.store file_path).1 =
                  ⟨some (rows.filter
                    (fun r => !(r.source == file_path)))⟩ := by
              simp [remove_document_from_collection, hcol]
            have hins : insert_embedded_chunks env.now
                ⟨some (rows.filter (fun r => !(r.source == file_path)))⟩
                (a :: l) =
                .ok (⟨some (rows.filter (fun r => !(r.source == file_path)) ++
                      (a :: l).map
                        (fun ec => chunk_to_milvus_data env.now ec.chunk
                          ec.embedding))⟩,
                     (a :: l).length) := rfl
            obtain ⟨c, hc⟩ : ∃ c, env.fs file_path = some c := by
              unfold file_has_changed compute_file_hash at hfc
              cases hfs : env.fs file_path with
              | none => rw [hfs] at hfc; simp at hfc
              | some c => exact ⟨c, rfl⟩
            have hupd : update_file_hash env.hashFn env.fs file_path
                s.hashes =
                some (dictInsert s.hashes file_path (env.hashFn c)) := by
              simp [update_file_hash, compute_file_hash, hc]
            have hval : add_document_to_kb env s file_path =
                ⟨.added,
                  ⟨⟨some (rows.filter (fun r => !(r.source == file_path)) ++
                      (a :: l).map
                        (fun ec => chunk_to_milvus_data env.now ec.chunk
                          ec.embedding))⟩,
                    dictInsert s.hashes file_path (env.hashFn c)⟩,
                  (elements_to_chunks (env.parseFn file_path)
                    file_path).length,
                  true, true⟩ := by
              simp [add_document_to_kb, hfc, hchunks, hemb, hst1, hins, hupd]
            rw [hval]
            intro q hq
            by_cases hqp : q = file_path
            · subst hqp
              simp [dictLookup_dictInsert_self]
            · rw [dictLookup_dictInsert_ne _ _ _ _ hqp]
              apply hInv q
              obtain ⟨x, hx⟩ := List.exists_mem_of_ne_nil _ hq
              simp only [rowsForSource, List.mem_filter,
                List.mem_append] at hx
              obtain ⟨hx1 | hx1, hx2⟩ := hx
              · have hxrows : x ∈ rows := hx1.1
                have hxq : x ∈ rowsForSource s.store q := by
                  simp only [rowsForSource, hcol, List.mem_filter]
                  exact ⟨hxrows, hx2⟩
                exact List.ne_nil_of_mem hxq
              · obtain ⟨ec, hec, hxeq⟩ := List.mem_map.mp hx1
                subst hxeq
                have hchunkmem : ec.chunk ∈
                    elements_to_chunks (env.parseFn file_path) file_path :=
                  embed_chunks_mem env.embedFn _ ec (by rw [hemb]; exact hec)
                have hsrc := chunk_mem_source _ _ _ hchunkmem
                have hq2 : ec.chunk.source = q := by
                  simpa [chunk_to_milvus_data] using hx2
                exact absurd (hq2.symm.trans hsrc) hqp

/-- Auxiliary: `remove_document` preserves the chunks-imply-hash
invariant. -/
theorem remove_preserves_hashRecordedForIndexed (s : KBState)
    (file_path : String) (hInv : hashRecordedForIndexed s) :
    hashRecordedForIndexed (remove_document s file_path) := by
  intro q hq
  obtain ⟨x, hx⟩ := List.exists_mem_of_ne_nil _ hq
  exact hInv q (List.ne_nil_of_mem
    (mem_rowsForSource_remove s.store file_path q x hx))

/-- Auxiliary: running any operation sequence from an invariant-satisfying
state keeps the invariant. -/
theorem runOps_preserves_hashRecordedForIndexed (ops : List KBOp) :
    ∀ s, hashRecordedForIndexed s →
      hashRecordedForIndexed (runOps s ops) := by
  induction ops with
  | nil => exact fun s hs => hs
  | cons op ops ih =>
    intro s hs
    show hashRecordedForIndexed (runOps (stepOp s op) ops)
    apply ih
    cases op with
    | addDoc env p => exact add_preserves_hashRecordedForIndexed env s p hs
    | removeDoc p => exact remove_preserves_hashRecordedForIndexed s p hs

/-- **C2, counterexample**: the hash/chunks correspondence is not an
`iff` outside the delete-insert window.  After the two completed operations
`addDoc "d"` then `removeDoc "d"` (no call in flight), the path `d` still
has a recorded hash although the store holds no chunks for it. -/
theorem hash_entry_outlives_chunks :
    dictLookup (runOps initState
        [KBOp.addDoc envC2 "d", KBOp.removeDoc "d"]).hashes "d" =
      some "v1" ∧
    rowsForSource (runOps initState
        [KBOp.addDoc envC2 "d", KBOp.removeDoc "d"]).store "d" = [] :=
  ⟨rfl, rfl⟩

/-- **C2, amended**: only one direction of the claimed invariant holds.
In every state reachable from the initial state by `add_document_to_kb` and
`remove_document` operations, a path whose chunks are present in the store
has a recorded hash; the converse direction is false (`remove_document`
and embedding-failure aborts leave a recorded hash with no chunks). -/
theorem reachable_indexed_implies_hash (ops : List KBOp) (p : String)
    (hrows : rowsForSource (runOps initState ops).store p ≠ []) :
    dictLookup (runOps initState ops).hashes p ≠ none := by
  refine runOps_preserves_hashRecordedForIndexed ops initState ?_ p hrows
  intro q hq
  exact absurd rfl hq

/-- Closed witness for `reachable_indexed_implies_hash`: after one
successful sync of `d`, chunks are present and a hash is recorded. -/
theorem reachable_indexed_implies_hash_witness :
    dictLookup (runOps initState [KBOp.addDoc envC2 "d"]).hashes "d" ≠
      none :=
  reachable_indexed_implies_hash [KBOp.addDoc envC2 "d"] "d" (by
    have hval : rowsForSource
        (runOps initState [KBOp.addDoc envC2 "d"]).store "d" =
        [⟨[1], "hello", "d", "T", [], "ts1", "d_0"⟩] := rfl
    rw [hval]
    exact List.cons_ne_nil _ _)

/-- **C7, counterexample**: the class-based pipeline
(`DocumentProcessor.process_document`) attaches metadata verbatim, so a
chunk whose element carries a list-valued metadata entry reaches the
vector-store row with a non-primitive value — the claim fails for chunks
emitted by that pipeline. -/
theorem class_pipeline_stores_unsanitized_metadata :
    ((process_document_chunks [elemC7] "f.md").map
        (fun c => c.metadata.map (fun kv => isPrimitive kv.2))) = [[false]] ∧
    ((process_document_chunks [elemC7] "f.md").map
        (fun c => (chunk_to_milvus_data "ts" c [1]).metadata.map
          (fun kv => isPrimitive kv.2))) = [[false]] := by
  constructor <;> rfl

/-- **C7, amended**: every chunk emitted by the functional ingestion
pipeline (`element_to_chunk` / `elements_to_chunks`) carries sanitized
metadata — every value is primitive, and the map is the element's raw
metadata with keys preserved and each non-primitive value replaced by its
string form; the class-based `DocumentProcessor.process_document` pipeline
attaches the raw metadata unsanitized. -/
theorem elements_to_chunks_metadata_sanitized (elements : List Element)
    (file_path : String) (c : DocumentChunk)
    (hc : c ∈ elements_to_chunks elements file_path) :
    (∀ kv ∈ c.metadata, isPrimitive kv.2 = true) ∧
    ∃ e ∈ elements,
      c.metadata = (e.metadata.getD []).map
        (fun kv => (kv.1, if isPrimitive kv.2 then kv.2
                          else PyVal.vStr (pyStr kv.2))) := by
  unfold elements_to_chunks at hc
  rw [List.mem_filterMap] at hc
  obtain ⟨ie, hmem, heq⟩ := hc
  unfold element_to_chunk at heq
  split at heq
  · simp at heq
  · rw [Option.some.injEq] at heq
    subst heq
    constructor
    · intro kv hkv
      simp only [sanitize_metadata] at hkv
      rw [List.mem_map] at hkv
      obtain ⟨kv0, _, hkv0⟩ := hkv
      subst hkv0
      exact isPrimitive_sanitized kv0.2
    · refine ⟨ie.2, ?_, rfl⟩
      have henum := List.enum_map_snd elements
      rw [← henum]
      exact List.mem_map_of_mem Prod.snd hmem

/-- Closed witness for `elements_to_chunks_metadata_sanitized`: the chunk
the functional pipeline emits for `elemC7` has its list-valued metadata
entry stringified. -/
theorem elements_to_chunks_metadata_sanitized_witness :
    (∀ kv ∈ chunkC7.metadata, isPrimitive kv.2 = true) ∧
    ∃ e ∈ [elemC7],
      chunkC7.metadata = (e.metadata.getD []).map
        (fun kv => (kv.1, if isPrimitive kv.2 then kv.2
                          else PyVal.vStr (pyStr kv.2))) :=
  elements_to_chunks_metadata_sanitized [elemC7] "f.md" chunkC7 (by
    show chunkC7 ∈ [chunkC7]
    exact List.mem_singleton.mpr rfl)

end KB
